import Mathlib

/-!
Verification of the roster-management dashboard (src/index.ts and
src/interfaces.ts): a shallow embedding of its data model, the roster query
pipeline (filter and sort of GET /characters), the session guards, the
login, registration and logout operations, the bootstrap seeder, the edit
operation and the unit detail lookup, together with theorems about the
properties the specification states.

Strings are embedded as Lean strings; the JS string operations used by the
code (toLowerCase, includes, the relational operators) are modelled on the
underlying character list, comparing character code points (JS compares
UTF-16 code units, which agrees on the basic multilingual plane).  The
storage-assigned Mongo `_id` is database-internal and left out of the
model; `bcrypt.hash` and `bcrypt.compare` are modelled as function
parameters, since their output is opaque to the handlers.
-/

namespace Webont

/-- Role of an account: the closed enumeration `'ADMIN' | 'USER'`
(src/interfaces.ts). -/
inductive Role where
  | ADMIN
  | USER
  deriving DecidableEq

/-- The embedded unit summary carried by every character
(src/interfaces.ts). -/
structure Unit where
  id : String
  name : String
  emblemUrl : String
  motto : String
  isElite : Bool
  foundedYear : Int
  deriving DecidableEq

/-- A character record (src/interfaces.ts).  `id` is the external string
identity of the imported dataset. -/
structure Character where
  id : String
  name : String
  age : Int
  description : String
  isActive : Bool
  rank : String
  birthDate : String
  imageUrl : String
  weapons : List String
  unit : Unit
  deriving DecidableEq

/-- An account record (src/interfaces.ts). -/
structure User where
  username : String
  password : String
  role : Role
  deriving DecidableEq

/-- The identity a session holds after login (index.ts lines 10-18,
126-130): the username and role copied from the account. -/
structure SessionUser where
  username : String
  role : Role
  deriving DecidableEq

/-! ### JS string primitives, on the underlying character lists -/

/-- JS String.prototype.toLowerCase, on the code points `Char.toLower`
lowers (the ASCII range). -/
def jsToLowerCase (s : String) : String := String.mk (s.data.map Char.toLower)

/-- Does the second list start with the first one?  (Code units compared
numerically.) -/
def startsWithChars : List Char → List Char → Bool
  | [], _ => true
  | _ :: _, [] => false
  | a :: as, b :: bs => a.toNat == b.toNat && startsWithChars as bs

/-- Does the second list contain the first as a contiguous run? -/
def containsChars (sub : List Char) : List Char → Bool
  | [] => sub.isEmpty
  | h :: t => startsWithChars sub (h :: t) || containsChars sub t

/-- JS String.prototype.includes: substring containment. -/
def jsIncludes (hay sub : String) : Bool := containsChars sub.data hay.data

/-- JS `<` on two strings: lexicographic comparison of code units. -/
def charsLt : List Char → List Char → Bool
  | [], [] => false
  | [], _ :: _ => true
  | _ :: _, [] => false
  | a :: as, b :: bs =>
    decide (a.toNat < b.toNat) || (a.toNat == b.toNat && charsLt as bs)

/-- JS `<` on strings. -/
def strLt (a b : String) : Bool := charsLt a.data b.data

/-- JS Array.prototype.join with separator "," (the coercion applied to an
array by a relational operator). -/
def joinComma : List String → List Char
  | [] => []
  | [s] => s.data
  | s :: rest => s.data ++ ',' :: joinComma rest

/-! ### The roster query pipeline: GET /characters (index.ts 173-207) -/

/-- The filter step (index.ts 178-183): a non-empty search string (JS
truthiness) keeps the characters whose lower-cased name contains the
lower-cased search string; an empty one leaves the collection as fetched. -/
def filterStep (search : String) (chars : List Character) : List Character :=
  if search = "" then chars
  else chars.filter (fun c => jsIncludes (jsToLowerCase c.name) (jsToLowerCase search))

/-- The fields a request can sort by: the keys of Character.  `other`
stands for any query value that is not a key of Character: the cast
`req.query.sort as keyof Character` does not validate, and indexing a
record by such a key yields undefined on both sides of the comparator.
The storage-internal optional `_id` is outside the model. -/
inductive SortField where
  | id
  | name
  | age
  | description
  | isActive
  | rank
  | birthDate
  | imageUrl
  | weapons
  | unit
  | other
  deriving DecidableEq

/-- The value a comparator operand has under the JS relational operators:
a string, a number, a boolean (coerced 0/1), or undefined (which compares
false both ways). -/
inductive SortKey where
  | str (s : String)
  | int (n : Int)
  | bool (b : Bool)
  | undefined
  deriving DecidableEq

/-- `a[sortField]` as compared by the comparator, with the special case of
index.ts 192-195: sorting by unit compares the embedded unit name.  An
array of strings coerces to its comma-joined string. -/
def sortKey (f : SortField) (c : Character) : SortKey :=
  match f with
  | .id => .str c.id
  | .name => .str c.name
  | .age => .int c.age
  | .description => .str c.description
  | .isActive => .bool c.isActive
  | .rank => .str c.rank
  | .birthDate => .str c.birthDate
  | .imageUrl => .str c.imageUrl
  | .weapons => .str (String.mk (joinComma c.weapons))
  | .unit => .str c.unit.name
  | .other => .undefined

/-- JS `<` on two sort keys.  A fixed sort field always produces keys of
one shape; operands of unlike shapes never arise and compare false. -/
def keyLt : SortKey → SortKey → Bool
  | .str a, .str b => strLt a b
  | .int a, .int b => decide (a < b)
  | .bool a, .bool b => !a && b
  | _, _ => false

/-- The comparator of index.ts 188-200: `sortOrder` is 1 ascending and -1
descending. -/
def jsCompare (f : SortField) (sortOrder : Int) (a b : Character) : Int :=
  if keyLt (sortKey f a) (sortKey f b) then -1 * sortOrder
  else if keyLt (sortKey f b) (sortKey f a) then 1 * sortOrder
  else 0

/-- `a` may stay before `b` exactly when the comparator does not require
the swap. -/
def jsLe (f : SortField) (sortOrder : Int) (a b : Character) : Bool :=
  decide (jsCompare f sortOrder a b ≤ 0)

/-- `Array.prototype.sort` with the comparator (index.ts 188-200): the
stable sort ordered by the comparator (ES2019 requires sort stability;
`List.mergeSort` is the stable sort). -/
def sortStep (f : SortField) (sortOrder : Int) (chars : List Character) : List Character :=
  chars.mergeSort (jsLe f sortOrder)

/-- `req.query.sort as keyof Character || 'name'` (index.ts 185): a missing
or empty parameter falls back to the name field; any other value is used as
the index. -/
def parseSortField (sort : Option String) : SortField :=
  match sort with
  | none => .name
  | some v =>
    if v = "" then .name
    else if v = "id" then .id
    else if v = "name" then .name
    else if v = "age" then .age
    else if v = "description" then .description
    else if v = "isActive" then .isActive
    else if v = "rank" then .rank
    else if v = "birthDate" then .birthDate
    else if v = "imageUrl" then .imageUrl
    else if v = "weapons" then .weapons
    else if v = "unit" then .unit
    else .other

/-- GET /characters (index.ts 173-207): read the query parameters with
their defaults, filter, then sort.  `order` is descending exactly on the
value "desc". -/
def listCharacters (chars : List Character) (search sort order : Option String) :
    List Character :=
  let s := match search with
    | none => ""
    | some v => v
  let filtered := filterStep s chars
  let f := parseSortField sort
  let sortOrder : Int := if order = some "desc" then -1 else 1
  sortStep f sortOrder filtered

/-! ### Session guards (index.ts 99-113) -/

/-- What a guard does with a request. -/
inductive GuardResult where
  | next
  | redirect (location : String)
  | forbidden (status : Nat) (view : String) (message : String)
  deriving DecidableEq

/-- requireLogin (index.ts 99-105). -/
def requireLogin (session : Option SessionUser) : GuardResult :=
  match session with
  | some _ => .next
  | none => .redirect "/login"

/-- requireAdmin (index.ts 107-113). -/
def requireAdmin (session : Option SessionUser) : GuardResult :=
  match session with
  | some u =>
    if u.role = Role.ADMIN then .next
    else .forbidden 403 "error" "Geen toegang. Alleen voor admins."
  | none => .forbidden 403 "error" "Geen toegang. Alleen voor admins."

/-! ### Authentication routes (index.ts 116-166) -/

/-- A rendered page or a redirect. -/
inductive PageResult where
  | redirect (location : String)
  | render (view : String) (error : Option String)
  deriving DecidableEq

/-- GET /login (index.ts 116-119). -/
def getLogin (session : Option SessionUser) : PageResult :=
  match session with
  | some _ => .redirect "/characters"
  | none => .render "login" none

/-- GET /register (index.ts 137-140). -/
def getRegister (session : Option SessionUser) : PageResult :=
  match session with
  | some _ => .redirect "/characters"
  | none => .render "register" none

/-- The observable outcome of a login attempt: the response and the session
it establishes, if any. -/
structure LoginOutcome where
  page : PageResult
  newSession : Option SessionUser
  deriving DecidableEq

/-- POST /login (index.ts 121-135): look the account up by username and
check the plaintext password against the stored hash (`bcrypt.compare`,
modelled by the function `compare`).  Success establishes a session and
redirects to the roster; any failure re-renders the login form with the
generic error message and establishes no session. -/
def postLogin (store : List User) (compare : String → String → Bool)
    (username password : String) : LoginOutcome :=
  match store.find? (fun u => u.username == username) with
  | some u =>
    if compare password u.password then
      { page := .redirect "/characters"
        newSession := some { username := u.username, role := u.role } }
    else
      { page := .render "login" (some "Gebruikersnaam of wachtwoord onjuist.")
        newSession := none }
  | none =>
    { page := .render "login" (some "Gebruikersnaam of wachtwoord onjuist.")
      newSession := none }

/-- The observable outcome of a registration attempt: the response and the
account store afterwards. -/
structure RegisterOutcome where
  page : PageResult
  store : List User
  deriving DecidableEq

/-- POST /register (index.ts 142-160): an existing username is rejected;
otherwise the password is hashed (`bcrypt.hash`, modelled by `hash`) and a
USER-role account is inserted, then the request is redirected to login. -/
def postRegister (store : List User) (hash : String → String)
    (username password : String) : RegisterOutcome :=
  match store.find? (fun u => u.username == username) with
  | some _ =>
    { page := .render "register" (some "Gebruikersnaam bestaat al.")
      store := store }
  | none =>
    { page := .redirect "/login"
      store := store ++ [{ username := username, password := hash password, role := Role.USER }] }

/-! ### Bootstrap seeder (index.ts 55-90) -/

/-- The two persistent collections the seeder touches. -/
structure DbState where
  users : List User
  characters : List Character
  deriving DecidableEq

/-- The default admin account inserted by the seeder (index.ts 64-69). -/
def adminSeed (hash : String → String) : User :=
  { username := "admin", password := hash "admin123", role := Role.ADMIN }

/-- The default regular account inserted by the seeder (index.ts 71-76). -/
def userSeed (hash : String → String) : User :=
  { username := "user", password := hash "user123", role := Role.USER }

/-- Lines 64-69: insert the admin account when no account named "admin"
exists. -/
def ensureAdmin (hash : String → String) (s : DbState) : DbState :=
  if (s.users.find? (fun u => u.username == "admin")).isSome then s
  else { s with users := s.users ++ [adminSeed hash] }

/-- Lines 71-76: insert the default user account when no account named
"user" exists. -/
def ensureUser (hash : String → String) (s : DbState) : DbState :=
  if (s.users.find? (fun u => u.username == "user")).isSome then s
  else { s with users := s.users ++ [userSeed hash] }

/-- Lines 78-85: when the character collection is empty, fetch the fixed
JSON resource (its contents are the parameter `fetched`) and insert it. -/
def seedCharacters (fetched : List Character) (s : DbState) : DbState :=
  if s.characters.length = 0 then { s with characters := s.characters ++ fetched }
  else s

/-- connectAndSeedDatabase (index.ts 55-90): the three steps in source
order, on the happy path (a storage or fetch error is logged and swallowed,
leaving whatever state the failed step reached). -/
def connectAndSeedDatabase (hash : String → String) (fetched : List Character)
    (s : DbState) : DbState :=
  seedCharacters fetched (ensureUser hash (ensureAdmin hash s))

/-! ### Character edit (index.ts 225-240) -/

/-- The `$set` document of POST /characters/:id/edit (index.ts 231-236):
name, the parsed age, description and the isActive checkbox value (the
literal string "true") replace the old fields; every other field keeps its
value.  `age` is the integer `parseInt` produced. -/
def applyEdit (name : String) (age : Int) (description isActiveRaw : String)
    (c : Character) : Character :=
  { c with
      name := name
      age := age
      description := description
      isActive := (isActiveRaw == "true") }

/-- `updateOne({id}, {$set})`: rewrite the first record whose external id
matches; nothing is inserted or removed. -/
def updateFirst (cid : String) (edit : Character → Character) :
    List Character → List Character
  | [] => []
  | c :: rest =>
    if c.id = cid then edit c :: rest
    else c :: updateFirst cid edit rest

/-- POST /characters/:id/edit (index.ts 225-240). -/
def postEdit (chars : List Character) (cid name : String) (age : Int)
    (description isActiveRaw : String) : List Character :=
  updateFirst cid (applyEdit name age description isActiveRaw) chars

/-! ### Unit detail (index.ts 250-271) -/

/-- A record of the `emblems` collection: the handler only reads its `id`;
the rest of the document is opaque payload. -/
structure Emblem where
  id : String
  payload : String
  deriving DecidableEq

/-- Where the displayed unit data came from. -/
inductive UnitSource where
  | fromEmblem (e : Emblem)
  | fromMember (u : Unit)
  deriving DecidableEq

/-- The response of GET /units/:id. -/
inductive UnitDetailResult where
  | ok (unit : UnitSource) (members : List Character)
  | notFound (status : Nat)
  deriving DecidableEq

/-- GET /units/:id (index.ts 250-271): collect the members whose embedded
unit id matches, look up the enrichment record, and fall back from the
enrichment record to the first member before reporting 404. -/
def getUnitDetail (chars : List Character) (emblems : List Emblem)
    (unitId : String) : UnitDetailResult :=
  let members := chars.filter (fun c => c.unit.id == unitId)
  match emblems.find? (fun e => e.id == unitId) with
  | some e => .ok (.fromEmblem e) members
  | none =>
    match members with
    | [] => .notFound 404
    | m :: _ => .ok (.fromMember m.unit) members

/-! ### Order facts about the comparator -/

theorem jsIncludes_empty (h : String) : jsIncludes h "" = true := by
  obtain ⟨l⟩ := h
  cases l with
  | nil => rfl
  | cons a t => rfl

theorem charsLt_asymm : ∀ {a b : List Char}, charsLt a b = true → charsLt b a = false
  | [], [], h => by simp [charsLt] at h
  | [], _ :: _, _ => rfl
  | _ :: _, [], h => by simp [charsLt] at h
  | a :: as, b :: bs, h => by
    cases hba : charsLt (b :: bs) (a :: as) with
    | false => rfl
    | true =>
      exfalso
      simp only [charsLt, Bool.or_eq_true, Bool.and_eq_true, decide_eq_true_eq,
        beq_iff_eq] at h hba
      rcases h with h | ⟨he, hlt⟩ <;> rcases hba with hb | ⟨hbe, hblt⟩
      · omega
      · omega
      · omega
      · have hf := charsLt_asymm hlt
        rw [hblt] at hf
        exact Bool.noConfusion hf

theorem charsLt_co_trans : ∀ {a b c : List Char}, charsLt a c = true →
    charsLt a b = true ∨ charsLt b c = true
  | [], [], _, h => Or.inr h
  | [], _ :: _, _, _ => Or.inl rfl
  | _ :: _, _, [], h => by simp [charsLt] at h
  | _ :: _, [], _ :: _, _ => Or.inr rfl
  | a :: as, b :: bs, c :: cs, h => by
    simp only [charsLt, Bool.or_eq_true, Bool.and_eq_true, decide_eq_true_eq,
      beq_iff_eq] at h ⊢
    rcases Nat.lt_trichotomy a.toNat b.toNat with h1 | h1 | h1
    · exact Or.inl (Or.inl h1)
    · rcases h with h | ⟨he, hlt⟩
      · exact Or.inr (Or.inl (by omega))
      · rcases @charsLt_co_trans as bs cs hlt with h2 | h2
        · exact Or.inl (Or.inr ⟨h1, h2⟩)
        · exact Or.inr (Or.inr ⟨by omega, h2⟩)
    · rcases h with h | ⟨he, hlt⟩
      · exact Or.inr (Or.inl (by omega))
      · exact Or.inr (Or.inl (by omega))

theorem keyLt_asymm : ∀ (k1 k2 : SortKey), keyLt k1 k2 = true → keyLt k2 k1 = false
  | .str _, .str _, h => charsLt_asymm h
  | .int a, .int b, h => by
    simp only [keyLt, decide_eq_true_eq] at h
    simp only [keyLt, decide_eq_false_iff_not]
    omega
  | .bool a, .bool b, h => by
    cases a <;> cases b <;> simp_all [keyLt]
  | .str _, .int _, h => by simp [keyLt] at h
  | .str _, .bool _, h => by simp [keyLt] at h
  | .str _, .undefined, h => by simp [keyLt] at h
  | .int _, .str _, h => by simp [keyLt] at h
  | .int _, .bool _, h => by simp [keyLt] at h
  | .int _, .undefined, h => by simp [keyLt] at h
  | .bool _, .str _, h => by simp [keyLt] at h
  | .bool _, .int _, h => by simp [keyLt] at h
  | .bool _, .undefined, h => by simp [keyLt] at h
  | .undefined, _, h => by simp [keyLt] at h

theorem keyLt_co_trans (f : SortField) (x y z : Character)
    (h : keyLt (sortKey f x) (sortKey f z) = true) :
    keyLt (sortKey f x) (sortKey f y) = true ∨ keyLt (sortKey f y) (sortKey f z) = true := by
  cases f <;>
    first
    | exact charsLt_co_trans h
    | (simp only [sortKey, keyLt, decide_eq_true_eq] at h ⊢; omega)
    | (simp only [sortKey, keyLt] at h ⊢;
       cases hx : x.isActive <;> cases hy : y.isActive <;> cases hz : z.isActive <;>
         simp_all)

theorem jsCompare_le_of_pos (f : SortField) (o : Int) (ho : 0 < o) (a b : Character) :
    jsCompare f o a b ≤ 0 ↔ keyLt (sortKey f b) (sortKey f a) = false := by
  unfold jsCompare
  cases h1 : keyLt (sortKey f a) (sortKey f b) <;>
    cases h2 : keyLt (sortKey f b) (sortKey f a)
  · simp
  · simp only [Bool.false_eq_true, if_false, if_true]
    constructor
    · intro hle; omega
    · intro hf; exact Bool.noConfusion hf
  · simp only [if_true, Bool.false_eq_true, if_false]
    constructor
    · intro _; trivial
    · intro _; omega
  · have hf := keyLt_asymm _ _ h1
    rw [h2] at hf
    exact Bool.noConfusion hf

theorem jsCompare_le_of_neg (f : SortField) (o : Int) (ho : o < 0) (a b : Character) :
    jsCompare f o a b ≤ 0 ↔ keyLt (sortKey f a) (sortKey f b) = false := by
  unfold jsCompare
  cases h1 : keyLt (sortKey f a) (sortKey f b) <;>
    cases h2 : keyLt (sortKey f b) (sortKey f a)
  · simp
  · simp only [Bool.false_eq_true, if_false, if_true]
    constructor
    · intro _; trivial
    · intro _; omega
  · simp only [if_true, Bool.false_eq_true, if_false]
    constructor
    · intro hle; omega
    · intro hf; exact Bool.noConfusion hf
  · have hf := keyLt_asymm _ _ h1
    rw [h2] at hf
    exact Bool.noConfusion hf

theorem jsCompare_zero_le (f : SortField) (a b : Character) :
    jsCompare f 0 a b ≤ 0 := by
  unfold jsCompare
  cases h1 : keyLt (sortKey f a) (sortKey f b) <;>
    cases h2 : keyLt (sortKey f b) (sortKey f a) <;> simp

theorem jsLe_trans (f : SortField) (o : Int) (a b c : Character)
    (h1 : jsLe f o a b = true) (h2 : jsLe f o b c = true) : jsLe f o a c = true := by
  simp only [jsLe, decide_eq_true_eq] at h1 h2 ⊢
  rcases lt_trichotomy o 0 with ho | ho | ho
  · rw [jsCompare_le_of_neg f o ho] at h1 h2 ⊢
    cases h3 : keyLt (sortKey f a) (sortKey f c) with
    | false => rfl
    | true =>
      rcases keyLt_co_trans f a b c h3 with h4 | h4
      · rw [h1] at h4; exact Bool.noConfusion h4
      · rw [h2] at h4; exact Bool.noConfusion h4
  · subst ho; exact jsCompare_zero_le f a c
  · rw [jsCompare_le_of_pos f o ho] at h1 h2 ⊢
    cases h3 : keyLt (sortKey f c) (sortKey f a) with
    | false => rfl
    | true =>
      rcases keyLt_co_trans f c b a h3 with h4 | h4
      · rw [h2] at h4; exact Bool.noConfusion h4
      · rw [h1] at h4; exact Bool.noConfusion h4

theorem jsLe_total (f : SortField) (o : Int) (a b : Character) :
    (jsLe f o a b || jsLe f o b a) = true := by
  simp only [jsLe, Bool.or_eq_true, decide_eq_true_eq]
  unfold jsCompare
  cases h1 : keyLt (sortKey f a) (sortKey f b) <;>
    cases h2 : keyLt (sortKey f b) (sortKey f a)
  · simp
  · simp only [Bool.false_eq_true, if_false, if_true]
    omega
  · simp only [if_true, Bool.false_eq_true, if_false]
    omega
  · have hf := keyLt_asymm _ _ h1
    rw [h2] at hf
    exact Bool.noConfusion hf

/-! ### The claims -/

/-- Claim C2: for every search string and character collection, the filter
step keeps exactly the records whose name contains the search string as a
case-insensitive substring — every kept record matches, every omitted
record does not — and the empty search string passes all records
unchanged. -/
theorem spec_C2_filter_exact (s : String) (C : List Character) :
    (∀ c ∈ filterStep s C,
      jsIncludes (jsToLowerCase c.name) (jsToLowerCase s) = true) ∧
    (∀ c ∈ C, c ∉ filterStep s C →
      jsIncludes (jsToLowerCase c.name) (jsToLowerCase s) = false) ∧
    (s = "" → filterStep s C = C) := by
  by_cases hs : s = ""
  · subst hs
    refine ⟨?_, ?_, fun _ => by simp [filterStep]⟩
    · intro c _
      exact jsIncludes_empty _
    · intro c hc hnc
      simp only [filterStep, if_pos rfl] at hnc
      exact absurd hc hnc
  · refine ⟨?_, ?_, fun h => absurd h hs⟩
    · intro c hc
      simp only [filterStep, if_neg hs] at hc
      exact (List.mem_filter.mp hc).2
    · intro c hc hnc
      simp only [filterStep, if_neg hs] at hnc
      cases hm : jsIncludes (jsToLowerCase c.name) (jsToLowerCase s) with
      | false => rfl
      | true => exact absurd (List.mem_filter.mpr ⟨hc, hm⟩) hnc

/-- Claim C3: for every character sequence, sort field and direction (any
comparator factor `o`, covering the 1 and -1 the handler uses), the sort
step is idempotent: sorting an already-sorted sequence by the same field
and direction returns it unchanged, which the stable sort guarantees. -/
theorem spec_C3_sort_idempotent (f : SortField) (o : Int) (l : List Character) :
    sortStep f o (sortStep f o l) = sortStep f o l := by
  unfold sortStep
  exact List.mergeSort_of_sorted
    (List.sorted_mergeSort (fun a b c => jsLe_trans f o a b c)
      (fun a b => jsLe_total f o a b) l)

/-- Claim C4: a login that fails because the username is unknown and a
login that fails because the password does not match the stored hash
produce the same observable outcome — the login form re-rendered with the
same generic message — and neither establishes a session. -/
theorem spec_C4_login_failures_alike (store : List User)
    (compare : String → String → Bool) (username password : String) :
    (store.find? (fun v => v.username == username) = none →
      postLogin store compare username password =
        { page := .render "login" (some "Gebruikersnaam of wachtwoord onjuist.")
          newSession := none }) ∧
    (∀ u, store.find? (fun v => v.username == username) = some u →
      compare password u.password = false →
      postLogin store compare username password =
        { page := .render "login" (some "Gebruikersnaam of wachtwoord onjuist.")
          newSession := none }) := by
  constructor
  · intro h
    simp [postLogin, h]
  · intro u hu hc
    simp [postLogin, hu, hc]

/-- Claim C5: requireLogin passes exactly when the session holds a user,
and otherwise redirects to /login with no error body; requireAdmin passes
exactly when the session user has role ADMIN, and otherwise answers with
the fixed 403 forbidden view — a shape distinct from a redirect. -/
theorem spec_C5_guard_dichotomy (s : Option SessionUser) :
    (requireLogin s = GuardResult.next ↔ s.isSome = true) ∧
    (s = none → requireLogin s = GuardResult.redirect "/login") ∧
    (requireAdmin s = GuardResult.next ↔ ∃ u, s = some u ∧ u.role = Role.ADMIN) ∧
    ((¬ ∃ u, s = some u ∧ u.role = Role.ADMIN) →
      requireAdmin s = GuardResult.forbidden 403 "error"
        "Geen toegang. Alleen voor admins.") ∧
    (∀ loc st v m, GuardResult.redirect loc ≠ GuardResult.forbidden st v m) := by
  refine ⟨?_, ?_, ?_, ?_, fun loc st v m hh => GuardResult.noConfusion hh⟩
  · cases s <;> simp [requireLogin]
  · intro h; subst h; rfl
  · cases s with
    | none => simp [requireAdmin]
    | some u =>
      by_cases hr : u.role = Role.ADMIN <;> simp [requireAdmin, hr]
  · intro h
    cases s with
    | none => rfl
    | some u =>
      have hr : ¬ u.role = Role.ADMIN := fun hh => h ⟨u, rfl, hh⟩
      simp [requireAdmin, hr]

/-- Claim C10: GET /login and GET /register redirect to /characters when
the session already holds a user, and render their forms exactly for
requests without an authenticated session. -/
theorem spec_C10_forms_redirect_when_authenticated (s : Option SessionUser) :
    (s.isSome = true →
      getLogin s = PageResult.redirect "/characters" ∧
      getRegister s = PageResult.redirect "/characters") ∧
    (s = none →
      getLogin s = PageResult.render "login" none ∧
      getRegister s = PageResult.render "register" none) := by
  cases s with
  | none => exact ⟨fun h => Bool.noConfusion h, fun _ => ⟨rfl, rfl⟩⟩
  | some u => exact ⟨fun _ => ⟨rfl, rfl⟩, fun h => Option.noConfusion h⟩

/-- The character named "Alpha" of the listing scenario, in the unit named
"Red". -/
def alphaChar : Character :=
  { id := "A", name := "Alpha", age := 30, description := "first"
    isActive := true, rank := "Sergeant", birthDate := "1990-01-01"
    imageUrl := "alpha.png", weapons := ["M4"]
    unit := { id := "u-red", name := "Red", emblemUrl := "red.png"
              motto := "first in", isElite := true, foundedYear := 1990 } }

/-- The character named "Beta" of the listing scenario, in the unit named
"Blue". -/
def betaChar : Character :=
  { id := "B", name := "Beta", age := 25, description := "second"
    isActive := false, rank := "Captain", birthDate := "1995-05-05"
    imageUrl := "beta.png", weapons := ["AK"]
    unit := { id := "u-blue", name := "Blue", emblemUrl := "blue.png"
              motto := "second to none", isElite := false, foundedYear := 1995 } }

/-- The scenario listing evaluated: search "a" keeps both characters,
because "beta" also contains "a", and the name sort keeps Alpha first. -/
theorem listAlphaBeta :
    listCharacters [alphaChar, betaChar] (some "a") (some "name") (some "asc") =
      [alphaChar, betaChar] := by
  have hfilter : filterStep "a" [alphaChar, betaChar] = [alphaChar, betaChar] := by
    decide
  show sortStep (parseSortField (some "name"))
      (if (some "asc" : Option String) = some "desc" then -1 else 1)
      (filterStep "a" [alphaChar, betaChar]) = [alphaChar, betaChar]
  rw [hfilter, if_neg (by decide), show parseSortField (some "name") = SortField.name
    from by decide]
  unfold sortStep
  apply List.mergeSort_of_sorted
  refine List.Pairwise.cons ?_ (List.pairwise_singleton _ _)
  intro b hb
  rw [List.mem_singleton.mp hb]
  show jsLe SortField.name 1 alphaChar betaChar = true
  decide

/-- Claim C1 counterexample: with the collection {Alpha in Red, Beta in
Blue} and the request search="a", sort="name", order="asc", the result is
not the one-element sequence [Alpha]: lower-cased "beta" also contains the
substring "a", so Beta is kept as well. -/
theorem spec_C1_counterexample :
    listCharacters [alphaChar, betaChar] (some "a") (some "name") (some "asc") ≠
      [alphaChar] := by
  rw [listAlphaBeta]
  decide

/-- Claim C1 as amended: that listing request returns exactly [Alpha,
Beta] — both names contain "a" case-insensitively, and the ascending name
sort places Alpha before Beta. -/
theorem spec_C1_amended :
    listCharacters [alphaChar, betaChar] (some "a") (some "name") (some "asc") =
      [alphaChar, betaChar] :=
  listAlphaBeta

/-- Claim C6: registration only ever creates USER-role accounts — any
account present afterwards but not before has role USER — so the ADMIN
accounts of the store are exactly those that were already there. -/
theorem spec_C6_register_only_user (store : List User) (hash : String → String)
    (username password : String) :
    ((postRegister store hash username password).store.filter
        (fun u => decide (u.role = Role.ADMIN)) =
      store.filter (fun u => decide (u.role = Role.ADMIN))) ∧
    (∀ u ∈ (postRegister store hash username password).store,
      u ∉ store → u.role = Role.USER) := by
  unfold postRegister
  cases hf : store.find? (fun v => v.username == username) with
  | some w =>
    exact ⟨rfl, fun u hu hnu => absurd hu hnu⟩
  | none =>
    constructor
    · rw [List.filter_append]
      simp
    · intro u hu hnu
      rcases List.mem_append.mp hu with h | h
      · exact absurd h hnu
      · rw [List.mem_singleton.mp h]

/-! ### Seeder helper lemmas -/

theorem find_isSome_append {p : User → Bool} {l1 l2 : List User}
    (h : (l1.find? p).isSome = true) : ((l1 ++ l2).find? p).isSome = true := by
  rw [List.find?_append]
  cases hf : l1.find? p with
  | none => rw [hf] at h; exact Bool.noConfusion h
  | some u => rfl

theorem ensureAdmin_characters (hash : String → String) (s : DbState) :
    (ensureAdmin hash s).characters = s.characters := by
  unfold ensureAdmin; split <;> rfl

theorem ensureUser_characters (hash : String → String) (s : DbState) :
    (ensureUser hash s).characters = s.characters := by
  unfold ensureUser; split <;> rfl

theorem seedCharacters_users (fetched : List Character) (s : DbState) :
    (seedCharacters fetched s).users = s.users := by
  unfold seedCharacters; split <;> rfl

theorem ensureAdmin_found (hash : String → String) (s : DbState) :
    (((ensureAdmin hash s).users.find? (fun u => u.username == "admin")).isSome) = true := by
  unfold ensureAdmin
  cases hf : s.users.find? (fun u => u.username == "admin") with
  | some u => simp [hf]
  | none => simp [hf, List.find?_append, adminSeed, List.find?]

theorem ensureUser_found (hash : String → String) (s : DbState) :
    (((ensureUser hash s).users.find? (fun u => u.username == "user")).isSome) = true := by
  unfold ensureUser
  cases hf : s.users.find? (fun u => u.username == "user") with
  | some u => simp [hf]
  | none => simp [hf, List.find?_append, userSeed, List.find?]

theorem ensureUser_keeps_found (hash : String → String) (s : DbState) (p : User → Bool)
    (h : ((s.users.find? p).isSome) = true) :
    (((ensureUser hash s).users.find? p).isSome) = true := by
  unfold ensureUser
  split
  · exact h
  · exact find_isSome_append h

theorem ensureAdmin_of_found (hash : String → String) (s : DbState)
    (h : ((s.users.find? (fun u => u.username == "admin")).isSome) = true) :
    ensureAdmin hash s = s := by
  simp [ensureAdmin, h]

theorem ensureUser_of_found (hash : String → String) (s : DbState)
    (h : ((s.users.find? (fun u => u.username == "user")).isSome) = true) :
    ensureUser hash s = s := by
  simp [ensureUser, h]

theorem seedCharacters_of_ne (fetched : List Character) (s : DbState)
    (h : s.characters ≠ []) : seedCharacters fetched s = s := by
  unfold seedCharacters
  rw [if_neg]
  simpa using h

theorem ensureAdmin_users_append (hash : String → String) (s : DbState) :
    ∃ t, (ensureAdmin hash s).users = s.users ++ t := by
  unfold ensureAdmin
  split
  · exact ⟨[], (List.append_nil _).symm⟩
  · exact ⟨[adminSeed hash], rfl⟩

theorem ensureUser_users_append (hash : String → String) (s : DbState) :
    ∃ t, (ensureUser hash s).users = s.users ++ t := by
  unfold ensureUser
  split
  · exact ⟨[], (List.append_nil _).symm⟩
  · exact ⟨[userSeed hash], rfl⟩

theorem seedChars_keep (hash : String → String) (fetched : List Character) (s : DbState)
    (h : s.characters ≠ []) :
    (connectAndSeedDatabase hash fetched s).characters = s.characters := by
  have h2 : (ensureUser hash (ensureAdmin hash s)).characters = s.characters := by
    rw [ensureUser_characters, ensureAdmin_characters]
  show (seedCharacters fetched (ensureUser hash (ensureAdmin hash s))).characters =
    s.characters
  rw [seedCharacters_of_ne _ _ (by rw [h2]; exact h), h2]

theorem seedChars_empty (hash : String → String) (fetched : List Character) (s : DbState)
    (h : s.characters = []) :
    (connectAndSeedDatabase hash fetched s).characters = fetched := by
  have h2 : (ensureUser hash (ensureAdmin hash s)).characters = s.characters := by
    rw [ensureUser_characters, ensureAdmin_characters]
  show (seedCharacters fetched (ensureUser hash (ensureAdmin hash s))).characters =
    fetched
  unfold seedCharacters
  rw [h2, h]
  simp

/-- Claim C7: running the bootstrap seeder twice in a row gives the same
state as running it once — the admin and user accounts are never
duplicated, a non-empty character collection is never re-imported, and
every pre-existing account survives. -/
theorem spec_C7_seed_idempotent (hash : String → String) (fetched : List Character)
    (s : DbState) :
    connectAndSeedDatabase hash fetched (connectAndSeedDatabase hash fetched s) =
      connectAndSeedDatabase hash fetched s ∧
    (s.characters ≠ [] →
      (connectAndSeedDatabase hash fetched s).characters = s.characters) ∧
    (∀ u ∈ s.users, u ∈ (connectAndSeedDatabase hash fetched s).users) := by
  refine ⟨?_, seedChars_keep hash fetched s, ?_⟩
  · have hA1 : (((connectAndSeedDatabase hash fetched s).users.find?
        (fun u => u.username == "admin")).isSome) = true := by
      show (((seedCharacters fetched (ensureUser hash (ensureAdmin hash s))).users.find?
        (fun u => u.username == "admin")).isSome) = true
      rw [seedCharacters_users]
      exact ensureUser_keeps_found _ _ _ (ensureAdmin_found _ _)
    have hU1 : (((connectAndSeedDatabase hash fetched s).users.find?
        (fun u => u.username == "user")).isSome) = true := by
      show (((seedCharacters fetched (ensureUser hash (ensureAdmin hash s))).users.find?
        (fun u => u.username == "user")).isSome) = true
      rw [seedCharacters_users]
      exact ensureUser_found _ _
    show seedCharacters fetched (ensureUser hash (ensureAdmin hash
        (connectAndSeedDatabase hash fetched s))) = connectAndSeedDatabase hash fetched s
    rw [ensureAdmin_of_found _ _ hA1, ensureUser_of_found _ _ hU1]
    by_cases hc : s.characters = []
    · by_cases hfe : fetched = []
      · have hS1c : (connectAndSeedDatabase hash fetched s).characters = [] := by
          rw [seedChars_empty hash fetched s hc, hfe]
        unfold seedCharacters
        rw [if_pos (by rw [hS1c]; rfl), hfe, List.append_nil]
      · exact seedCharacters_of_ne _ _
          (by rw [seedChars_empty hash fetched s hc]; exact hfe)
    · exact seedCharacters_of_ne _ _ (by rw [seedChars_keep hash fetched s hc]; exact hc)
  · obtain ⟨t, ht⟩ : ∃ t, (connectAndSeedDatabase hash fetched s).users = s.users ++ t := by
      obtain ⟨t1, h1⟩ := ensureAdmin_users_append hash s
      obtain ⟨t2, h2⟩ := ensureUser_users_append hash (ensureAdmin hash s)
      refine ⟨t1 ++ t2, ?_⟩
      show (seedCharacters fetched (ensureUser hash (ensureAdmin hash s))).users = _
      rw [seedCharacters_users, h2, h1, List.append_assoc]
    intro u hu
    rw [ht]
    exact List.mem_append_left _ hu

/-! ### Edit frame lemmas -/

theorem postEdit_frame_aux (cid name : String) (age : Int)
    (description isActiveRaw : String) :
    ∀ (chars : List Character), chars.Pairwise (fun a b => a.id ≠ b.id) →
      List.Forall₂ (fun c cNew =>
        cNew.id = c.id ∧ cNew.rank = c.rank ∧ cNew.birthDate = c.birthDate ∧
        cNew.imageUrl = c.imageUrl ∧ cNew.weapons = c.weapons ∧ cNew.unit = c.unit ∧
        (c.id = cid → cNew = applyEdit name age description isActiveRaw c) ∧
        (c.id ≠ cid → cNew = c))
      chars (updateFirst cid (applyEdit name age description isActiveRaw) chars)
  | [], _ => List.Forall₂.nil
  | c :: rest, h => by
    rw [List.pairwise_cons] at h
    obtain ⟨hhead, htail⟩ := h
    unfold updateFirst
    by_cases hc : c.id = cid
    · rw [if_pos hc]
      refine List.Forall₂.cons ⟨rfl, rfl, rfl, rfl, rfl, rfl, fun _ => rfl,
        fun hn => absurd hc hn⟩ ?_
      rw [List.forall₂_same]
      intro b hb
      have hbne : b.id ≠ cid := fun hbid => (hhead b hb) (hc.trans hbid.symm)
      exact ⟨rfl, rfl, rfl, rfl, rfl, rfl, fun hbid => absurd hbid hbne, fun _ => rfl⟩
    · rw [if_neg hc]
      exact List.Forall₂.cons
        ⟨rfl, rfl, rfl, rfl, rfl, rfl, fun hcc => absurd hcc hc, fun _ => rfl⟩
        (postEdit_frame_aux cid name age description isActiveRaw rest htail)

/-- Claim C8: for a collection with unique external ids, the edit
operation touches only the matched character, and on it only the name,
age, description and active flag: every record keeps its id, rank, birth
date, image reference, weapons and embedded unit; every non-matching
record is fully unchanged; and no record is destroyed. -/
theorem spec_C8_edit_frame (chars : List Character) (cid name : String) (age : Int)
    (description isActiveRaw : String)
    (huniq : chars.Pairwise (fun a b => a.id ≠ b.id)) :
    (postEdit chars cid name age description isActiveRaw).length = chars.length ∧
    List.Forall₂ (fun c cNew =>
      cNew.id = c.id ∧ cNew.rank = c.rank ∧ cNew.birthDate = c.birthDate ∧
      cNew.imageUrl = c.imageUrl ∧ cNew.weapons = c.weapons ∧ cNew.unit = c.unit ∧
      (c.id = cid → cNew = applyEdit name age description isActiveRaw c) ∧
      (c.id ≠ cid → cNew = c))
      chars (postEdit chars cid name age description isActiveRaw) := by
  have hF := postEdit_frame_aux cid name age description isActiveRaw chars huniq
  exact ⟨hF.length_eq.symm, hF⟩

/-- Witness for C8: the edit of the character with id "A" in the concrete
two-character collection, whose ids are distinct. -/
theorem spec_C8_edit_frame_witness :
    ([alphaChar, betaChar].Pairwise (fun a b => a.id ≠ b.id)) ∧
    ((postEdit [alphaChar, betaChar] "A" "Anna" 31 "edited" "true").length =
        [alphaChar, betaChar].length ∧
      List.Forall₂ (fun c cNew =>
        cNew.id = c.id ∧ cNew.rank = c.rank ∧ cNew.birthDate = c.birthDate ∧
        cNew.imageUrl = c.imageUrl ∧ cNew.weapons = c.weapons ∧ cNew.unit = c.unit ∧
        (c.id = "A" → cNew = applyEdit "Anna" 31 "edited" "true" c) ∧
        (c.id ≠ "A" → cNew = c))
        [alphaChar, betaChar] (postEdit [alphaChar, betaChar] "A" "Anna" 31 "edited" "true")) :=
  ⟨by decide, spec_C8_edit_frame [alphaChar, betaChar] "A" "Anna" 31 "edited" "true"
    (by decide)⟩

/-- Claim C9: the unit detail lookup returns the enrichment (emblem)
record when one matches the requested id, falls back to the first matching
member's embedded unit copy when no enrichment record exists, and reports
404 exactly when neither an enrichment record nor a member exists. -/
theorem spec_C9_unit_precedence (chars : List Character) (emblems : List Emblem)
    (unitId : String) :
    (∀ e, emblems.find? (fun x => x.id == unitId) = some e →
      getUnitDetail chars emblems unitId =
        .ok (.fromEmblem e) (chars.filter (fun c => c.unit.id == unitId))) ∧
    (emblems.find? (fun x => x.id == unitId) = none →
      ∀ m ms, chars.filter (fun c => c.unit.id == unitId) = m :: ms →
        getUnitDetail chars emblems unitId = .ok (.fromMember m.unit) (m :: ms)) ∧
    (getUnitDetail chars emblems unitId = .notFound 404 ↔
      emblems.find? (fun x => x.id == unitId) = none ∧
      chars.filter (fun c => c.unit.id == unitId) = []) := by
  refine ⟨?_, ?_, ?_⟩
  · intro e he
    simp [getUnitDetail, he]
  · intro hn m ms hm
    simp [getUnitDetail, hn, hm]
  · unfold getUnitDetail
    cases he : emblems.find? (fun x => x.id == unitId) with
    | some e => simp
    | none =>
      cases hm : chars.filter (fun c => c.unit.id == unitId) with
      | nil => simp [hm]
      | cons m ms => simp [hm]

end Webont
